import Mathlib

/-!
# SteganoGaurd — verification of the steganography and decoding layer

Shallow embedding of `src/lib/steganography.ts`, the decode classification in
`src/components/decode-tab.tsx`, and `getPublicKeyHash` from `src/lib/crypto.ts`.

Conventions of the embedding:
* A canvas pixel buffer (`Uint8ClampedArray`) is modelled as a total function
  `px : Nat → Nat` together with its length `len` (always `4 * totalPixels`
  for an RGBA canvas).  Writes are function updates; reads at arbitrary
  indices are total, but the source only ever reads indices it has bounds
  checked (or that lie inside the buffer under the stated hypotheses).
* JavaScript 32-bit shifts (`>>`) first coerce to the Int32 bit pattern, i.e.
  they operate on the value mod 2^32; this is written explicitly as `% 2^32`.
* `Number(dataView.getBigUint64(...))` and `setBigUint64` are exact for
  values below 2^53 (any realizable buffer length); the model reads and
  writes the 8 bytes exactly, with the `BigUint64` wrap-around written as
  `% 2^64`.
* Thrown `Error`s become an explicit error type `StegoError`; the
  constructors carry the data interpolated into the source's messages.
-/

namespace SteganoGuard

/-- "SGGD" — beginning-of-data marker of the PNG LSB format. -/
def PNG_BOD_MARKER : List Nat := [83, 71, 71, 68]

/-- 8-byte end-of-data marker of the PNG LSB format. -/
def PNG_EOD_MARKER : List Nat := [0, 0, 0, 0, 255, 255, 255, 255]

/-- "STEGGUARD" — end-of-data marker of the generic (appending) format. -/
def GENERIC_EOD_MARKER : List Nat := [83, 84, 69, 71, 71, 85, 65, 82, 68]

/-- Errors thrown by the steganography functions, one constructor per
`throw new Error(...)` site; `capacityExceeded` carries the
`requiredPixels` / `maxPixels` numbers interpolated into the message. -/
inductive StegoError where
  | invalidHeader : StegoError
  | corruptHeader : StegoError
  | markerNotFound : StegoError
  | capacityExceeded (required available : Nat) : StegoError
  | tooSmall : StegoError
  | corruptLength : StegoError
  deriving DecidableEq, Repr

/-- Functional update of a pixel buffer at one index. -/
def setIdx (f : Nat → Nat) (i v : Nat) : Nat → Nat :=
  fun p => if p = i then v else f p

/-- One loop iteration of the embedders: force the pixel's alpha byte to 255,
then overwrite the least-significant bit of channel `ch` of the pixel at
byte offset `base` with `bit` (`pixels[base+3] = 255;
pixels[base+ch] = (pixels[base+ch] & 0xFE) | bit`). -/
def embedOneBit (f : Nat → Nat) (base ch bit : Nat) : Nat → Nat :=
  let f1 := setIdx f (base + 3) 255
  setIdx f1 (base + ch) ((f1 (base + ch)) &&& 0xFE ||| bit)

/-- The bit-embedding loop: the `j`-th remaining bit (the loop counter having
already advanced to `k`) goes to pixel-byte
`base + ((k+j)/3)*4 + (k+j)%3`.  `base` is `startPixel * 4`. -/
def embedBitsAux (base : Nat) : (Nat → Nat) → List Nat → Nat → (Nat → Nat)
  | f, [], _ => f
  | f, bit :: rest, k =>
      embedBitsAux base (embedOneBit f (base + k / 3 * 4) (k % 3) bit) rest (k + 1)

/-- Embed a bit list starting at pixel `startPixel`, matching the source's
`pixelIndex = startPixel*4 + floor(bitIndex/3)*4`, `channel = bitIndex % 3`. -/
def embedBits (startPixel : Nat) (f : Nat → Nat) (bits : List Nat) : Nat → Nat :=
  embedBitsAux (startPixel * 4) f bits 0

/-- The 32 header bits of `dataLength`, most significant first:
`(dataLength >> (31 - i)) & 1` for `i = 0 .. 31` (JS `>>` works on the
Int32 bit pattern, i.e. on `dataLength % 2^32`). -/
def headerBits (dataLength : Nat) : List Nat :=
  (List.range 32).map (fun i => (dataLength % 4294967296) >>> (31 - i) &&& 1)

/-- The 8 bits of a byte, most significant first: `(byte >> (7 - j)) & 1`. -/
def byteBits (b : Nat) : List Nat :=
  (List.range 8).map (fun j => b >>> (7 - j) &&& 1)

/-- All bits of a byte list, in stream order. -/
def bytesBits : List Nat → List Nat
  | [] => []
  | b :: rest => byteBits b ++ bytesBits rest

/-- `embedDataInPng` (steganography.ts lines 81–145) on an RGBA pixel buffer:
build `fullPayload = BOD ++ data ++ EOD`, check capacity
(`11 + ceil(fullPayload.length*8/3)` pixels against `pixels.length/4`),
then LSB-embed the 32-bit length header at pixel 0 and the payload bits at
pixel 11.  The canvas drawing, watermark stamping and PNG re-encoding around
the pixel manipulation are not modelled: the function maps pixels in,
pixels out. -/
def embedDataInPng (px : Nat → Nat) (len : Nat) (data : List Nat) :
    Except StegoError (Nat → Nat) :=
  let dataLength := data.length
  let fullPayload := PNG_BOD_MARKER ++ data ++ PNG_EOD_MARKER
  let requiredPixels := 11 + (fullPayload.length * 8 + 2) / 3
  let maxPixels := len / 4
  if requiredPixels > maxPixels then
    .error (.capacityExceeded requiredPixels maxPixels)
  else
    let px1 := embedBits 0 px (headerBits dataLength)
    .ok (embedBits 11 px1 (bytesBits fullPayload))

/-- The extraction loop body: bit `k` of the stream starting at byte offset
`base` lives at `base + (k/3)*4 + k%3`; the loop bails out with `none` when
the bounds check `base + (k/3)*4 >= pixels.length` fails.  The first
argument after `base` is the number of bits still to read. -/
def extractBitsAux (px : Nat → Nat) (len base : Nat) : Nat → Nat → Option (List Nat)
  | 0, _ => some []
  | n + 1, k =>
      if len ≤ base + k / 3 * 4 then none
      else (extractBitsAux px len base n (k + 1)).map
        (fun rest => (px (base + k / 3 * 4 + k % 3) &&& 1) :: rest)

/-- `extractBitsFromImage` (steganography.ts lines 154–169). -/
def extractBitsFromImage (px : Nat → Nat) (len startPixel numBits : Nat) :
    Option (List Nat) :=
  extractBitsAux px len (startPixel * 4) numBits 0

/-- `bitsToBytes` (steganography.ts lines 176–188): consume complete groups of
8 bits MSB-first, dropping any incomplete trailing group. -/
def bitsToBytes : List Nat → List Nat
  | b0 :: b1 :: b2 :: b3 :: b4 :: b5 :: b6 :: b7 :: rest =>
      ([b0, b1, b2, b3, b4, b5, b6, b7].foldl (fun byte bit => byte <<< 1 ||| bit) 0)
        :: bitsToBytes rest
  | _ => []

/-- Step 2 of `extractDataFromPng`: attempt the NEW format (BOD + data + EOD)
starting at pixel 11; `none` when the bits cannot be read or a marker check
fails (source lines 220–234). -/
def pngTryNew (px : Nat → Nat) (len dataLength : Nat) : Option (List Nat) :=
  let newFormatPayloadLength := PNG_BOD_MARKER.length + dataLength + PNG_EOD_MARKER.length
  match extractBitsFromImage px len 11 (newFormatPayloadLength * 8) with
  | none => none
  | some newFormatBits =>
    let newBytes := bitsToBytes newFormatBits
    let eodIndex := PNG_BOD_MARKER.length + dataLength
    if newBytes.take PNG_BOD_MARKER.length = PNG_BOD_MARKER ∧
        (newBytes.drop eodIndex).take PNG_EOD_MARKER.length = PNG_EOD_MARKER then
      some ((newBytes.drop PNG_BOD_MARKER.length).take dataLength)
    else none

/-- Step 3 of `extractDataFromPng`: fall back to the OLD format (data + EOD,
no BOD marker), source lines 236–247. -/
def pngTryOld (px : Nat → Nat) (len dataLength : Nat) : Option (List Nat) :=
  let oldFormatPayloadLength := dataLength + PNG_EOD_MARKER.length
  match extractBitsFromImage px len 11 (oldFormatPayloadLength * 8) with
  | none => none
  | some oldFormatBits =>
    let oldBytes := bitsToBytes oldFormatBits
    if (oldBytes.drop dataLength).take PNG_EOD_MARKER.length = PNG_EOD_MARKER then
      some (oldBytes.take dataLength)
    else none

/-- `extractDataFromPng` (steganography.ts lines 197–251): read the 32-bit
length header, validate it, then try the new format (BOD + data + EOD) and
fall back to the legacy format (data + EOD).  The `isNaN(dataLength)` test
of the source cannot fire in the `Nat` model.  `maxStorableBytes` uses `Nat`
subtraction; this agrees with JS at every reachable state since a `none`
from the header read already rules out fewer than 11 pixels. -/
def extractDataFromPng (px : Nat → Nat) (len : Nat) : Except StegoError (List Nat) :=
  match extractBitsFromImage px len 0 32 with
  | none => .error .invalidHeader
  | some lengthBits =>
    let dataLength := lengthBits.foldl (fun d b => d <<< 1 ||| b) 0
    let maxStorableBytes := (len / 4 - 11) * 3 / 8
    if dataLength = 0 ∨ maxStorableBytes < dataLength then .error .corruptHeader
    else
      match pngTryNew px len dataLength with
      | some result => .ok result
      | none =>
        match pngTryOld px len dataLength with
        | some result => .ok result
        | none => .error .markerNotFound

/-- Big-endian 8-byte encoding of a length (`setBigUint64(0, n, false)`,
which stores `n mod 2^64`). -/
def natToBE8 (n : Nat) : List Nat :=
  (List.range 8).map (fun i => n % 18446744073709551616 / 256 ^ (7 - i) % 256)

/-- Big-endian read of a byte list (`getBigUint64(0, false)` on 8 bytes). -/
def beBytesToNat (bs : List Nat) : Nat :=
  bs.foldl (fun a b => a * 256 + b) 0

/-- `embedDataInGenericFile` (steganography.ts lines 262–279):
`cover ‖ data ‖ "STEGGUARD" ‖ length(8 bytes, big-endian)`. -/
def embedDataInGenericFile (cover data : List Nat) : List Nat :=
  cover ++ data ++ GENERIC_EOD_MARKER ++ natToBE8 data.length

/-- `extractDataFromGenericFile` (steganography.ts lines 287–323). -/
def extractDataFromGenericFile (file : List Nat) : Except StegoError (List Nat) :=
  let eodMarkerLength := GENERIC_EOD_MARKER.length
  let lengthMarkerLength := 8
  let footerLength := eodMarkerLength + lengthMarkerLength
  if file.length < footerLength then .error .tooSmall
  else
    let lengthStart := file.length - lengthMarkerLength
    let markerStart := lengthStart - eodMarkerLength
    let potentialEodMarker := (file.drop markerStart).take eodMarkerLength
    if potentialEodMarker ≠ GENERIC_EOD_MARKER then .error .markerNotFound
    else
      let dataLength := beBytesToNat (file.drop lengthStart)
      let dataEnd := markerStart
      if markerStart < dataLength then .error .corruptLength
      else .ok ((file.drop (dataEnd - dataLength)).take dataLength)

/-! ### Bit-level helper lemmas -/

/-- Or-ing a bit into an even number is addition. -/
theorem even_lor (x b : Nat) (h : x % 2 = 0) (hb : b ≤ 1) : x ||| b = x + b := by
  have hb2 : b = 0 ∨ b = 1 := by omega
  rcases hb2 with rfl | rfl
  · simp
  · apply Nat.eq_of_testBit_eq
    intro i
    rw [Nat.testBit_lor]
    cases i with
    | zero =>
      simp only [Nat.testBit_zero]
      have h1 : (x + 1) % 2 = 1 := by omega
      simp [h1]
    | succ j =>
      simp only [Nat.testBit_succ]
      have h1 : (x + 1) / 2 = x / 2 := by omega
      have h2 : (1 : Nat) / 2 = 0 := by norm_num
      rw [h1, h2]
      simp

/-- `x & 0xFE` clears the least-significant bit. -/
theorem and254_mod_two (x : Nat) : (x &&& 254) % 2 = 0 := by
  have h := Nat.and_one_is_mod (x &&& 254)
  rw [Nat.land_assoc] at h
  simpa using h.symm

/-- Reading back the LSB just written by `(x & 0xFE) | b`. -/
theorem lsbWrite_and_one (x b : Nat) (hb : b ≤ 1) : (x &&& 254 ||| b) &&& 1 = b := by
  rw [even_lor _ _ (and254_mod_two x) hb, Nat.and_one_is_mod]
  have := and254_mod_two x
  omega

set_option maxRecDepth 4096 in
/-- On byte values, `x & 0xFE` is exactly `2 * (x / 2)`. -/
theorem and254_eq (x : Nat) (hx : x < 256) : x &&& 254 = 2 * (x / 2) := by
  revert hx
  revert x
  decide

/-- An LSB write leaves the upper bits of a byte unchanged. -/
theorem lsbWrite_div_two (x b : Nat) (hx : x < 256) (hb : b ≤ 1) :
    (x &&& 254 ||| b) / 2 = x / 2 := by
  rw [even_lor _ _ (and254_mod_two x) hb, and254_eq x hx]
  omega

/-- An LSB write keeps a byte a byte. -/
theorem lsbWrite_lt (x b : Nat) (hx : x < 256) (hb : b ≤ 1) :
    x &&& 254 ||| b < 256 := by
  rw [even_lor _ _ (and254_mod_two x) hb, and254_eq x hx]
  omega

theorem and_one_le_one (n : Nat) : n &&& 1 ≤ 1 := by
  rw [Nat.and_one_is_mod]
  omega

/-- Folding `d := (d << 1) | bit` over the `n` bits of `x`, most significant
first, reconstructs `x mod 2^n` (shifted under the accumulator). -/
theorem foldl_msb (n : Nat) : ∀ x a : Nat,
    List.foldl (fun d b => d <<< 1 ||| b) a
      ((List.range n).map (fun i => x >>> (n - 1 - i) &&& 1)) = a * 2 ^ n + x % 2 ^ n := by
  induction n with
  | zero => intro x a; simp [Nat.mod_one]
  | succ n ih =>
    intro x a
    rw [List.range_succ_eq_map, List.map_cons, List.map_map, List.foldl_cons]
    have hcomp : ((fun i => x >>> (n + 1 - 1 - i) &&& 1) ∘ Nat.succ) =
        (fun i => x >>> (n - 1 - i) &&& 1) := by
      funext i
      show x >>> (n + 1 - 1 - (i + 1)) &&& 1 = x >>> (n - 1 - i) &&& 1
      rw [show n + 1 - 1 - (i + 1) = n - 1 - i from by omega]
    have hstep : a <<< 1 ||| (x >>> (n + 1 - 1 - 0) &&& 1) = 2 * a + x / 2 ^ n % 2 := by
      rw [Nat.shiftLeft_eq, Nat.shiftRight_eq_div_pow, Nat.and_one_is_mod]
      have : n + 1 - 1 - 0 = n := by omega
      rw [this, even_lor _ _ (by omega) (by omega)]
      ring
    rw [hcomp, hstep, ih x (2 * a + x / 2 ^ n % 2)]
    have hmod : x % 2 ^ (n + 1) = x % 2 ^ n + 2 ^ n * (x / 2 ^ n % 2) := by
      rw [pow_succ, Nat.mod_mul]
    rw [hmod, pow_succ]
    ring

/-- The 32-bit header fold of `extractDataFromPng` inverts `headerBits`. -/
theorem headerBits_foldl (L : Nat) :
    (headerBits L).foldl (fun d b => d <<< 1 ||| b) 0 = L % 4294967296 := by
  have h := foldl_msb 32 (L % 4294967296) 0
  have hfun : (fun i => (L % 4294967296) >>> (32 - 1 - i) &&& 1) =
      (fun i => (L % 4294967296) >>> (31 - i) &&& 1) := by
    funext i
    norm_num
  rw [hfun] at h
  unfold headerBits
  rw [h]
  norm_num

/-- The 8 bits of a byte, written out. -/
theorem byteBits_explicit (b : Nat) : byteBits b =
    [b >>> 7 &&& 1, b >>> 6 &&& 1, b >>> 5 &&& 1, b >>> 4 &&& 1,
     b >>> 3 &&& 1, b >>> 2 &&& 1, b >>> 1 &&& 1, b >>> 0 &&& 1] := rfl

/-- The byte fold of `bitsToBytes` inverts `byteBits` on byte values. -/
theorem byteBits_foldl (b : Nat) (hb : b < 256) :
    (byteBits b).foldl (fun byte bit => byte <<< 1 ||| bit) 0 = b := by
  have h := foldl_msb 8 b 0
  have hfun : (fun i => b >>> (8 - 1 - i) &&& 1) = (fun i => b >>> (7 - i) &&& 1) := by
    funext i
    norm_num
  rw [hfun] at h
  unfold byteBits
  rw [h]
  simp [Nat.mod_eq_of_lt hb]

/-- `bitsToBytes` peels one full byte group. -/
theorem bitsToBytes_byteBits_cons (b : Nat) (rest : List Nat) :
    bitsToBytes (byteBits b ++ rest) =
      ((byteBits b).foldl (fun byte bit => byte <<< 1 ||| bit) 0) :: bitsToBytes rest := by
  rw [byteBits_explicit]
  rfl

/-- `bitsToBytes` inverts `bytesBits` on lists of byte values. -/
theorem bitsToBytes_bytesBits (bs : List Nat) (h : ∀ b ∈ bs, b < 256) :
    bitsToBytes (bytesBits bs) = bs := by
  induction bs with
  | nil => rfl
  | cons b rest ih =>
    rw [show bytesBits (b :: rest) = byteBits b ++ bytesBits rest from rfl,
      bitsToBytes_byteBits_cons, byteBits_foldl b (h b (by simp)),
      ih (fun x hx => h x (by simp [hx]))]

/-- Every bit produced by `bytesBits` is 0 or 1. -/
theorem bytesBits_le_one (bs : List Nat) : ∀ b ∈ bytesBits bs, b ≤ 1 := by
  induction bs with
  | nil => simp [bytesBits]
  | cons b rest ih =>
    intro x hx
    rw [show bytesBits (b :: rest) = byteBits b ++ bytesBits rest from rfl] at hx
    rcases List.mem_append.mp hx with hx | hx
    · unfold byteBits at hx
      rcases List.mem_map.mp hx with ⟨i, _, rfl⟩
      exact and_one_le_one _
    · exact ih x hx

/-! ### Pointwise characterization of the embedding loops -/

/-- Byte offset of the LSB write for bit `k` of a stream based at byte `base`. -/
def bitPos (base k : Nat) : Nat := base + k / 3 * 4 + k % 3

/-- Byte offset of the alpha write accompanying bit `k`. -/
def alphaPos (base k : Nat) : Nat := base + k / 3 * 4 + 3

theorem bitPos_inj (base k1 k2 : Nat) (h : bitPos base k1 = bitPos base k2) : k1 = k2 := by
  unfold bitPos at h
  omega

theorem bitPos_ne_alphaPos (b1 b2 k1 k2 : Nat) (h1 : b1 % 4 = 0) (h2 : b2 % 4 = 0) :
    bitPos b1 k1 ≠ alphaPos b2 k2 := by
  unfold bitPos alphaPos
  omega

theorem alphaPos_eq_iff (base k1 k2 : Nat) :
    alphaPos base k1 = alphaPos base k2 ↔ k1 / 3 = k2 / 3 := by
  unfold alphaPos
  omega

theorem embedOneBit_alpha (f : Nat → Nat) (b ch bit : Nat) (h : ch < 3) :
    embedOneBit f b ch bit (b + 3) = 255 := by
  simp [embedOneBit, setIdx, show ¬(b + 3 = b + ch) from by omega]

theorem embedOneBit_self (f : Nat → Nat) (b ch bit : Nat) (h : ch < 3) :
    embedOneBit f b ch bit (b + ch) = (f (b + ch) &&& 254 ||| bit) := by
  simp [embedOneBit, setIdx, show ¬(b + ch = b + 3) from by omega]

theorem embedOneBit_other (f : Nat → Nat) (b ch bit p : Nat)
    (h3 : p ≠ b + 3) (hch : p ≠ b + ch) : embedOneBit f b ch bit p = f p := by
  simp [embedOneBit, setIdx, h3, hch]

/-- Bytes not written by the loop are left unchanged. -/
theorem embedBitsAux_unchanged (base : Nat) (bits : List Nat) :
    ∀ (f : Nat → Nat) (k p : Nat),
      (∀ j, k ≤ j → j < k + bits.length → p ≠ bitPos base j ∧ p ≠ alphaPos base j) →
      embedBitsAux base f bits k p = f p := by
  induction bits with
  | nil => intro f k p _; rfl
  | cons bit rest ih =>
    intro f k p h
    show embedBitsAux base (embedOneBit f (base + k / 3 * 4) (k % 3) bit) rest (k + 1) p = f p
    rw [ih _ (k + 1) p (fun j hj1 hj2 =>
      h j (by omega) (by simp only [List.length_cons]; omega))]
    have hk := h k (Nat.le_refl k) (by simp only [List.length_cons]; omega)
    exact embedOneBit_other f _ _ bit p hk.2 hk.1

/-- The LSB write for bit `k + i` lands at `bitPos base (k+i)` and stores
`(old & 0xFE) | bits[i]`. -/
theorem embedBitsAux_lsb (base : Nat) (hb : base % 4 = 0) (bits : List Nat) :
    ∀ (f : Nat → Nat) (k i : Nat), i < bits.length →
      embedBitsAux base f bits k (bitPos base (k + i)) =
        (f (bitPos base (k + i)) &&& 254 ||| bits.getD i 0) := by
  induction bits with
  | nil => intro f k i hi; simp at hi
  | cons bit rest ih =>
    intro f k i hi
    show embedBitsAux base (embedOneBit f (base + k / 3 * 4) (k % 3) bit) rest (k + 1)
        (bitPos base (k + i)) = _
    cases i with
    | zero =>
      rw [embedBitsAux_unchanged base rest _ (k + 1) _
        (fun j hj1 hj2 => ⟨fun hcon => by have := bitPos_inj base _ _ hcon; omega,
          bitPos_ne_alphaPos base base _ j hb hb⟩)]
      show embedOneBit f (base + k / 3 * 4) (k % 3) bit (bitPos base k) = _
      have hself := embedOneBit_self f (base + k / 3 * 4) (k % 3) bit (Nat.mod_lt k (by omega))
      exact hself
    | succ i =>
      rw [show k + (i + 1) = (k + 1) + i from by omega]
      rw [ih _ (k + 1) i (by simpa using hi)]
      rw [embedOneBit_other f _ _ bit _
        ((bitPos_ne_alphaPos base base (k + 1 + i) k hb hb))
        (fun hcon => by have := bitPos_inj base _ _ hcon; omega)]
      rfl

/-- Every alpha byte of a pixel the loop touches ends up 255. -/
theorem embedBitsAux_alpha (base : Nat) (hb : base % 4 = 0) (bits : List Nat) :
    ∀ (f : Nat → Nat) (k j : Nat), (∃ i, i < bits.length ∧ (k + i) / 3 = j) →
      embedBitsAux base f bits k (base + j * 4 + 3) = 255 := by
  induction bits with
  | nil => intro f k j h; simp at h
  | cons bit rest ih =>
    intro f k j h
    show embedBitsAux base (embedOneBit f (base + k / 3 * 4) (k % 3) bit) rest (k + 1)
        (base + j * 4 + 3) = 255
    by_cases hrest : ∃ i, i < rest.length ∧ (k + 1 + i) / 3 = j
    · exact ih _ (k + 1) j hrest
    · obtain ⟨i, hi, hij⟩ := h
      have hi0 : i = 0 := by
        by_contra hne
        exact hrest ⟨i - 1, by simp at hi; omega, by rw [show k + 1 + (i - 1) = k + i from by omega]; exact hij⟩
      subst hi0
      rw [show k + 0 = k from rfl] at hij
      have htarget : base + j * 4 + 3 = alphaPos base k := by
        unfold alphaPos
        omega
      rw [htarget]
      rw [embedBitsAux_unchanged base rest _ (k + 1) _ (fun j' hj1 hj2 =>
        ⟨fun hcon => bitPos_ne_alphaPos base base j' k hb hb hcon.symm,
         fun hcon => hrest ⟨j' - (k + 1), by omega,
           by rw [show k + 1 + (j' - (k + 1)) = j' from by omega]
              have := (alphaPos_eq_iff base k j').mp hcon
              omega⟩⟩)]
      show embedOneBit f (base + k / 3 * 4) (k % 3) bit (base + k / 3 * 4 + 3) = 255
      exact embedOneBit_alpha f _ _ bit (Nat.mod_lt k (by omega))

/-! ### Characterization of the extraction loop -/

/-- When every bounds check passes, the loop returns exactly the LSBs at the
stream positions. -/
theorem extractBitsAux_some (px : Nat → Nat) (len base : Nat) :
    ∀ (n k : Nat), (∀ i, i < n → base + (k + i) / 3 * 4 < len) →
      extractBitsAux px len base n k =
        some ((List.range n).map (fun i => px (base + (k + i) / 3 * 4 + (k + i) % 3) &&& 1)) := by
  intro n
  induction n with
  | zero => intro k _; rfl
  | succ n ih =>
    intro k h
    show (if len ≤ base + k / 3 * 4 then none
      else (extractBitsAux px len base n (k + 1)).map
        (fun rest => (px (base + k / 3 * 4 + k % 3) &&& 1) :: rest)) = _
    rw [if_neg (by have := h 0 (by omega); push_neg; simpa using this)]
    rw [ih (k + 1) (fun i hi => by
      have := h (i + 1) (by omega)
      rw [show k + 1 + i = k + (i + 1) from by omega]
      exact this)]
    rw [Option.map_some']
    congr 1
    rw [List.range_succ_eq_map, List.map_cons, List.map_map]
    have hf : (fun i => px (base + (k + 1 + i) / 3 * 4 + (k + 1 + i) % 3) &&& 1) =
        ((fun i => px (base + (k + i) / 3 * 4 + (k + i) % 3) &&& 1) ∘ Nat.succ) := by
      funext i
      show _ = px (base + (k + (i + 1)) / 3 * 4 + (k + (i + 1)) % 3) &&& 1
      rw [show k + 1 + i = k + (i + 1) from by omega]
    rw [hf]
    rfl

/-- If any needed position fails the bounds check, the loop returns `none`. -/
theorem extractBitsAux_none (px : Nat → Nat) (len base : Nat) :
    ∀ (n k : Nat), (∃ i, i < n ∧ len ≤ base + (k + i) / 3 * 4) →
      extractBitsAux px len base n k = none := by
  intro n
  induction n with
  | zero => intro k h; simp at h
  | succ n ih =>
    intro k h
    show (if len ≤ base + k / 3 * 4 then none
      else (extractBitsAux px len base n (k + 1)).map
        (fun rest => (px (base + k / 3 * 4 + k % 3) &&& 1) :: rest)) = _
    by_cases h0 : len ≤ base + k / 3 * 4
    · rw [if_pos h0]
    · rw [if_neg h0]
      obtain ⟨i, hi, hle⟩ := h
      have hi0 : i ≠ 0 := by
        intro hcon
        subst hcon
        exact h0 (by simpa using hle)
      rw [ih (k + 1) ⟨i - 1, by omega,
        by rw [show k + 1 + (i - 1) = k + i from by omega]; exact hle⟩]
      rfl

/-- `extractBitsFromImage` in terms of `bitPos`, success case. -/
theorem extractBitsFromImage_some (px : Nat → Nat) (len s n : Nat)
    (h : ∀ i, i < n → s * 4 + i / 3 * 4 < len) :
    extractBitsFromImage px len s n =
      some ((List.range n).map (fun i => px (bitPos (s * 4) i) &&& 1)) := by
  unfold extractBitsFromImage
  rw [extractBitsAux_some px len (s * 4) n 0 (fun i hi => by simpa using h i hi)]
  have hf : (fun i => px (s * 4 + (0 + i) / 3 * 4 + (0 + i) % 3) &&& 1) =
      (fun i => px (bitPos (s * 4) i) &&& 1) := by
    funext i
    rw [show (0 : Nat) + i = i from by omega]
    rfl
  rw [hf]

/-- `getD` on a mapped range. -/
theorem getD_map_range (f : Nat → Nat) (n i : Nat) (h : i < n) :
    ((List.range n).map f).getD i 0 = f i := by
  simp [List.getD_eq_getElem?_getD, List.getElem?_map, List.getElem?_range h]

/-- Reading every index of a list by `getD` reproduces the list. -/
theorem map_getD_range_self (l : List Nat) :
    (List.range l.length).map (fun i => l.getD i 0) = l := by
  induction l with
  | nil => rfl
  | cons a t ih =>
    rw [show (a :: t).length = t.length + 1 from rfl, List.range_succ_eq_map,
      List.map_cons, List.map_map]
    have hc : ((fun i => (a :: t).getD i 0) ∘ Nat.succ) = (fun i => t.getD i 0) := by
      funext i
      rfl
    rw [hc, ih]
    rfl

/-! ### The embedded PNG image, pointwise -/

/-- The pixel buffer produced by a successful `embedDataInPng` (its `ok`
branch): header bits at pixel 0, payload bits at pixel 11. -/
def pngEmbedded (px : Nat → Nat) (data : List Nat) : Nat → Nat :=
  embedBits 11 (embedBits 0 px (headerBits data.length))
    (bytesBits (PNG_BOD_MARKER ++ data ++ PNG_EOD_MARKER))

theorem fullPayload_length (data : List Nat) :
    (PNG_BOD_MARKER ++ data ++ PNG_EOD_MARKER).length = data.length + 12 := by
  simp [PNG_BOD_MARKER, PNG_EOD_MARKER]

theorem headerBits_length (L : Nat) : (headerBits L).length = 32 := by
  simp [headerBits]

theorem bytesBits_length (bs : List Nat) : (bytesBits bs).length = bs.length * 8 := by
  induction bs with
  | nil => rfl
  | cons b rest ih =>
    show (byteBits b ++ bytesBits rest).length = _
    simp [byteBits, ih]
    omega

theorem getD_mem (l : List Nat) (i : Nat) (h : i < l.length) : l.getD i 0 ∈ l := by
  rw [List.getD_eq_getElem?_getD, List.getElem?_eq_getElem h]
  exact List.getElem_mem h

/-- A successful embed, unfolded. -/
theorem embedDataInPng_eq_ok (px : Nat → Nat) (len : Nat) (data : List Nat)
    (h : 11 + ((data.length + 12) * 8 + 2) / 3 ≤ len / 4) :
    embedDataInPng px len data = .ok (pngEmbedded px data) := by
  unfold embedDataInPng pngEmbedded
  simp only [fullPayload_length]
  rw [if_neg (by omega)]

/-- A failed embed, unfolded: the capacity error carries the pixel counts. -/
theorem embedDataInPng_eq_err (px : Nat → Nat) (len : Nat) (data : List Nat)
    (h : len / 4 < 11 + ((data.length + 12) * 8 + 2) / 3) :
    embedDataInPng px len data =
      .error (.capacityExceeded (11 + ((data.length + 12) * 8 + 2) / 3) (len / 4)) := by
  unfold embedDataInPng
  simp only [fullPayload_length]
  rw [if_pos (by omega)]

/-- Header LSB bytes of the embedded image. -/
theorem pngEmbedded_header_lsb (px : Nat → Nat) (data : List Nat) (i : Nat) (hi : i < 32) :
    pngEmbedded px data (bitPos 0 i) =
      (px (bitPos 0 i) &&& 254 ||| (headerBits data.length).getD i 0) := by
  unfold pngEmbedded embedBits
  have hu : embedBitsAux (11 * 4) (embedBitsAux (0 * 4) px (headerBits data.length) 0)
      (bytesBits (PNG_BOD_MARKER ++ data ++ PNG_EOD_MARKER)) 0 (bitPos 0 i) =
      embedBitsAux (0 * 4) px (headerBits data.length) 0 (bitPos 0 i) := by
    apply embedBitsAux_unchanged
    intro j _ _
    constructor
    · simp only [bitPos]
      omega
    · simp only [bitPos, alphaPos]
      omega
  rw [hu]
  have h0 : (0 : Nat) * 4 = 0 := by norm_num
  rw [h0]
  have := embedBitsAux_lsb 0 (by norm_num) (headerBits data.length) px 0 i
    (by rw [headerBits_length]; exact hi)
  simpa using this

/-- Payload LSB bytes of the embedded image. -/
theorem pngEmbedded_payload_lsb (px : Nat → Nat) (data : List Nat) (i : Nat)
    (hi : i < (data.length + 12) * 8) :
    pngEmbedded px data (bitPos 44 i) =
      (px (bitPos 44 i) &&& 254 |||
        (bytesBits (PNG_BOD_MARKER ++ data ++ PNG_EOD_MARKER)).getD i 0) := by
  unfold pngEmbedded embedBits
  have h44 : (11 : Nat) * 4 = 44 := by norm_num
  rw [h44]
  have hlen : i < (bytesBits (PNG_BOD_MARKER ++ data ++ PNG_EOD_MARKER)).length := by
    rw [bytesBits_length, fullPayload_length]
    exact hi
  have := embedBitsAux_lsb 44 (by norm_num) (bytesBits (PNG_BOD_MARKER ++ data ++ PNG_EOD_MARKER))
    (embedBitsAux (0 * 4) px (headerBits data.length) 0) 0 i hlen
  simp only [Nat.zero_add] at this
  rw [this]
  have hmid : embedBitsAux (0 * 4) px (headerBits data.length) 0 (bitPos 44 i) =
      px (bitPos 44 i) := by
    apply embedBitsAux_unchanged
    intro j _ hj2
    rw [headerBits_length] at hj2
    constructor
    · simp only [bitPos]
      omega
    · simp only [bitPos, alphaPos]
      omega
  rw [hmid]

/-- Alpha bytes of every pixel touched by header or frame are forced to 255. -/
theorem pngEmbedded_alpha (px : Nat → Nat) (data : List Nat) (j : Nat)
    (hj : j < 11 + ((data.length + 12) * 8 + 2) / 3) :
    pngEmbedded px data (j * 4 + 3) = 255 := by
  unfold pngEmbedded embedBits
  have h44 : (11 : Nat) * 4 = 44 := by norm_num
  rw [h44]
  by_cases hcase : j < 11
  · -- written by the header loop, untouched by the payload loop
    have hu : embedBitsAux 44 (embedBitsAux (0 * 4) px (headerBits data.length) 0)
        (bytesBits (PNG_BOD_MARKER ++ data ++ PNG_EOD_MARKER)) 0 (j * 4 + 3) =
        embedBitsAux (0 * 4) px (headerBits data.length) 0 (j * 4 + 3) := by
      apply embedBitsAux_unchanged
      intro j' _ _
      constructor
      · simp only [bitPos]
        omega
      · simp only [bitPos, alphaPos]
        omega
    rw [hu]
    have h0 : (0 : Nat) * 4 = 0 := by norm_num
    rw [h0]
    have htar : j * 4 + 3 = 0 + j * 4 + 3 := by omega
    rw [htar]
    apply embedBitsAux_alpha 0 (by norm_num) (headerBits data.length) px 0 j
    exact ⟨3 * j, by rw [headerBits_length]; omega, by omega⟩
  · -- written by the payload loop
    have htar : j * 4 + 3 = 44 + (j - 11) * 4 + 3 := by omega
    rw [htar]
    apply embedBitsAux_alpha 44 (by norm_num) _ _ 0 (j - 11)
    refine ⟨3 * (j - 11), ?_, by omega⟩
    rw [bytesBits_length, fullPayload_length]
    omega

/-- Every byte outside the header and frame writes is unchanged. -/
theorem pngEmbedded_untouched (px : Nat → Nat) (data : List Nat) (p : Nat)
    (hna : p % 4 = 3 → 11 + ((data.length + 12) * 8 + 2) / 3 ≤ p / 4)
    (hnh : p % 4 < 3 → p / 4 < 11 → 32 ≤ p / 4 * 3 + p % 4)
    (hnp : p % 4 < 3 → 11 ≤ p / 4 → (data.length + 12) * 8 ≤ (p / 4 - 11) * 3 + p % 4) :
    pngEmbedded px data p = px p := by
  unfold pngEmbedded embedBits
  have h44 : (11 : Nat) * 4 = 44 := by norm_num
  rw [h44]
  have hu : embedBitsAux 44 (embedBitsAux (0 * 4) px (headerBits data.length) 0)
      (bytesBits (PNG_BOD_MARKER ++ data ++ PNG_EOD_MARKER)) 0 p =
      embedBitsAux (0 * 4) px (headerBits data.length) 0 p := by
    apply embedBitsAux_unchanged
    intro j _ hj2
    rw [bytesBits_length, fullPayload_length] at hj2
    constructor
    · simp only [bitPos]
      omega
    · simp only [bitPos, alphaPos]
      omega
  rw [hu]
  apply embedBitsAux_unchanged
  intro j _ hj2
  rw [headerBits_length] at hj2
  constructor
  · simp only [bitPos]
    omega
  · simp only [bitPos, alphaPos]
    omega

/-! ### Case analysis of `extractDataFromPng` -/

theorem extractDataFromPng_invalid (px : Nat → Nat) (len : Nat)
    (h : extractBitsFromImage px len 0 32 = none) :
    extractDataFromPng px len = .error .invalidHeader := by
  unfold extractDataFromPng
  rw [h]

theorem extractDataFromPng_corrupt (px : Nat → Nat) (len : Nat) (lengthBits : List Nat)
    (hhead : extractBitsFromImage px len 0 32 = some lengthBits)
    (hbad : lengthBits.foldl (fun d b => d <<< 1 ||| b) 0 = 0 ∨
      (len / 4 - 11) * 3 / 8 < lengthBits.foldl (fun d b => d <<< 1 ||| b) 0) :
    extractDataFromPng px len = .error .corruptHeader := by
  unfold extractDataFromPng
  rw [hhead]
  simp only []
  rw [if_pos hbad]

theorem extractDataFromPng_newFormat (px : Nat → Nat) (len : Nat) (lengthBits r : List Nat)
    (hhead : extractBitsFromImage px len 0 32 = some lengthBits)
    (hgood : ¬(lengthBits.foldl (fun d b => d <<< 1 ||| b) 0 = 0 ∨
      (len / 4 - 11) * 3 / 8 < lengthBits.foldl (fun d b => d <<< 1 ||| b) 0))
    (hnew : pngTryNew px len (lengthBits.foldl (fun d b => d <<< 1 ||| b) 0) = some r) :
    extractDataFromPng px len = .ok r := by
  unfold extractDataFromPng
  rw [hhead]
  simp only []
  rw [if_neg hgood, hnew]

theorem extractDataFromPng_oldFormat (px : Nat → Nat) (len : Nat) (lengthBits r : List Nat)
    (hhead : extractBitsFromImage px len 0 32 = some lengthBits)
    (hgood : ¬(lengthBits.foldl (fun d b => d <<< 1 ||| b) 0 = 0 ∨
      (len / 4 - 11) * 3 / 8 < lengthBits.foldl (fun d b => d <<< 1 ||| b) 0))
    (hnew : pngTryNew px len (lengthBits.foldl (fun d b => d <<< 1 ||| b) 0) = none)
    (hold : pngTryOld px len (lengthBits.foldl (fun d b => d <<< 1 ||| b) 0) = some r) :
    extractDataFromPng px len = .ok r := by
  unfold extractDataFromPng
  rw [hhead]
  simp only []
  rw [if_neg hgood, hnew, hold]

theorem extractDataFromPng_notFound (px : Nat → Nat) (len : Nat) (lengthBits : List Nat)
    (hhead : extractBitsFromImage px len 0 32 = some lengthBits)
    (hgood : ¬(lengthBits.foldl (fun d b => d <<< 1 ||| b) 0 = 0 ∨
      (len / 4 - 11) * 3 / 8 < lengthBits.foldl (fun d b => d <<< 1 ||| b) 0))
    (hnew : pngTryNew px len (lengthBits.foldl (fun d b => d <<< 1 ||| b) 0) = none)
    (hold : pngTryOld px len (lengthBits.foldl (fun d b => d <<< 1 ||| b) 0) = none) :
    extractDataFromPng px len = .error .markerNotFound := by
  unfold extractDataFromPng
  rw [hhead]
  simp only []
  rw [if_neg hgood, hnew, hold]

/-! ### Reading an embedded image back -/

theorem headerBits_getD_le (L i : Nat) (h : i < 32) : (headerBits L).getD i 0 ≤ 1 := by
  unfold headerBits
  rw [getD_map_range _ _ _ h]
  exact and_one_le_one _

theorem bytesBits_getD_le (bs : List Nat) (i : Nat) (h : i < (bytesBits bs).length) :
    (bytesBits bs).getD i 0 ≤ 1 :=
  bytesBits_le_one bs _ (getD_mem _ _ h)

/-- Reading the 32 header bits from an embedded image returns `headerBits`. -/
theorem pngEmbedded_headerRead (px : Nat → Nat) (data : List Nat) (N : Nat) (hN : 11 ≤ N) :
    extractBitsFromImage (pngEmbedded px data) (4 * N) 0 32 = some (headerBits data.length) := by
  rw [extractBitsFromImage_some _ _ 0 32 (fun i hi => by omega)]
  congr 1
  have hstep : ∀ i ∈ List.range 32,
      pngEmbedded px data (bitPos (0 * 4) i) &&& 1 = (headerBits data.length).getD i 0 := by
    intro i hi
    have hi32 := List.mem_range.mp hi
    rw [show (0 : Nat) * 4 = 0 from by norm_num,
      pngEmbedded_header_lsb px data i hi32,
      lsbWrite_and_one _ _ (headerBits_getD_le _ _ hi32)]
  rw [List.map_congr_left hstep,
    show (32 : Nat) = (headerBits data.length).length from (headerBits_length _).symm,
    map_getD_range_self]

/-- Reading the frame bits from an embedded image returns the payload bits. -/
theorem pngEmbedded_payloadRead (px : Nat → Nat) (data : List Nat) (N : Nat)
    (hcap : 11 + ((data.length + 12) * 8 + 2) / 3 ≤ N) :
    extractBitsFromImage (pngEmbedded px data) (4 * N) 11 ((data.length + 12) * 8) =
      some (bytesBits (PNG_BOD_MARKER ++ data ++ PNG_EOD_MARKER)) := by
  rw [extractBitsFromImage_some _ _ 11 _ (fun i hi => by omega)]
  congr 1
  have hstep : ∀ i ∈ List.range ((data.length + 12) * 8),
      pngEmbedded px data (bitPos (11 * 4) i) &&& 1 =
        (bytesBits (PNG_BOD_MARKER ++ data ++ PNG_EOD_MARKER)).getD i 0 := by
    intro i hi
    have hilt := List.mem_range.mp hi
    rw [show (11 : Nat) * 4 = 44 from by norm_num,
      pngEmbedded_payload_lsb px data i hilt,
      lsbWrite_and_one _ _ (bytesBits_getD_le _ _ (by rw [bytesBits_length, fullPayload_length]; exact hilt))]
  rw [List.map_congr_left hstep,
    show (data.length + 12) * 8 = (bytesBits (PNG_BOD_MARKER ++ data ++ PNG_EOD_MARKER)).length from
      by rw [bytesBits_length, fullPayload_length],
    map_getD_range_self]

theorem fullPayload_bytes_lt (data : List Nat) (h : ∀ b ∈ data, b < 256) :
    ∀ b ∈ PNG_BOD_MARKER ++ data ++ PNG_EOD_MARKER, b < 256 := by
  intro b hb
  rw [List.append_assoc, List.mem_append, List.mem_append] at hb
  rcases hb with hb | hb | hb
  · simp [PNG_BOD_MARKER] at hb
    omega
  · exact h b hb
  · simp [PNG_EOD_MARKER] at hb
    omega

/-- The new-format attempt on an embedded image recovers the payload. -/
theorem pngTryNew_embedded (px : Nat → Nat) (data : List Nat) (N : Nat)
    (hbytes : ∀ b ∈ data, b < 256)
    (hcap : 11 + ((data.length + 12) * 8 + 2) / 3 ≤ N) :
    pngTryNew (pngEmbedded px data) (4 * N) data.length = some data := by
  unfold pngTryNew
  simp only []
  rw [show PNG_BOD_MARKER.length + data.length + PNG_EOD_MARKER.length = data.length + 12 from
    by simp [PNG_BOD_MARKER, PNG_EOD_MARKER]; omega]
  rw [pngEmbedded_payloadRead px data N hcap]
  simp only []
  rw [bitsToBytes_bytesBits _ (fullPayload_bytes_lt data hbytes)]
  have htake : (PNG_BOD_MARKER ++ data ++ PNG_EOD_MARKER).take PNG_BOD_MARKER.length =
      PNG_BOD_MARKER := by
    rw [List.append_assoc]
    exact List.take_left _ _
  have hdrop : ((PNG_BOD_MARKER ++ data ++ PNG_EOD_MARKER).drop
      (PNG_BOD_MARKER.length + data.length)).take PNG_EOD_MARKER.length = PNG_EOD_MARKER := by
    rw [List.drop_left' (by simp), List.take_length]
  rw [if_pos ⟨htake, hdrop⟩]
  congr 1
  rw [List.append_assoc, List.drop_left, List.take_left]

/-! ### Claim C1 — PNG LSB round-trip -/

/-- C1 (amended): for every NONEMPTY payload byte array `P` with fewer than
2^32 bytes and every cover image with at least `11 + ceil((len(P)+12)*8/3)`
pixels, extracting from the image produced by `embedDataInPng` returns
exactly `P`.  (The original claim, quantified over ALL payloads, fails for
the empty payload: the decoder rejects a zero length header.) -/
theorem C1_roundtrip_amended (px : Nat → Nat) (data : List Nat) (N : Nat)
    (hne : data ≠ [])
    (h32 : data.length < 4294967296)
    (hbytes : ∀ b ∈ data, b < 256)
    (hcap : 11 + ((data.length + 12) * 8 + 2) / 3 ≤ N) :
    (embedDataInPng px (4 * N) data).bind
      (fun stego => extractDataFromPng stego (4 * N)) = .ok data := by
  have hL1 : 1 ≤ data.length := List.length_pos.mpr hne
  have hdiv : 4 * N / 4 = N := by omega
  rw [embedDataInPng_eq_ok px (4 * N) data (by rw [hdiv]; exact hcap)]
  show extractDataFromPng (pngEmbedded px data) (4 * N) = .ok data
  have hfold : (headerBits data.length).foldl (fun d b => d <<< 1 ||| b) 0 = data.length := by
    rw [headerBits_foldl, Nat.mod_eq_of_lt h32]
  apply extractDataFromPng_newFormat _ _ (headerBits data.length) data
    (pngEmbedded_headerRead px data N (by omega))
  · rw [hfold, hdiv]
    push_neg
    constructor
    · omega
    · omega
  · rw [hfold]
    exact pngTryNew_embedded px data N hbytes hcap

set_option maxRecDepth 1000000 in
/-- C1 counterexample: the claim as stated fails for the EMPTY payload: a
43-pixel all-zero cover has sufficient capacity (`11 + ceil(12*8/3) = 43`
pixels), the embed succeeds, but extraction rejects the zero length header
instead of returning the empty payload. -/
theorem C1_roundtrip_counterexample :
    (embedDataInPng (fun _ => 0) (4 * 43) []).bind
      (fun stego => extractDataFromPng stego (4 * 43)) = .error .corruptHeader ∧
    (Except.error .corruptHeader : Except StegoError (List Nat)) ≠ .ok [] :=
  ⟨rfl, fun h => Except.noConfusion h⟩

/-- Witness for `C1_roundtrip_amended` at payload `[7]`, a 46-pixel cover. -/
theorem C1_roundtrip_witness :
    (embedDataInPng (fun _ => 0) (4 * 46) [7]).bind
      (fun stego => extractDataFromPng stego (4 * 46)) = .ok [7] :=
  C1_roundtrip_amended (fun _ => 0) [7] 46 (by decide) (by decide)
    (by decide) (by decide)

/-! ### Claim C6 — exact capacity check -/

/-- C6: `embedDataInPng` fails with the capacity error (reporting required
versus available pixel counts) iff `11 + ceil(frameBits/3) > totalPixels`
with `frameBits = (4 + len(payload) + 8) * 8`; an image with exactly the
required pixels succeeds and one with one pixel fewer fails. -/
theorem C6_capacity_exact (px : Nat → Nat) (data : List Nat) (N : Nat) :
    (embedDataInPng px (4 * N) data =
        .error (.capacityExceeded (11 + ((4 + data.length + 8) * 8 + 2) / 3) N) ↔
      N < 11 + ((4 + data.length + 8) * 8 + 2) / 3) ∧
    (embedDataInPng px
      (4 * (11 + ((4 + data.length + 8) * 8 + 2) / 3)) data).isOk = true ∧
    embedDataInPng px (4 * (11 + ((4 + data.length + 8) * 8 + 2) / 3 - 1)) data =
      .error (.capacityExceeded (11 + ((4 + data.length + 8) * 8 + 2) / 3)
        (11 + ((4 + data.length + 8) * 8 + 2) / 3 - 1)) := by
  have h12 : 4 + data.length + 8 = data.length + 12 := by omega
  rw [h12]
  refine ⟨⟨?_, ?_⟩, ?_, ?_⟩
  · intro h
    by_contra hcon
    rw [embedDataInPng_eq_ok px (4 * N) data (by omega)] at h
    exact Except.noConfusion h
  · intro h
    have hdiv : 4 * N / 4 = N := by omega
    have herr := embedDataInPng_eq_err px (4 * N) data (by omega)
    rw [hdiv] at herr
    exact herr
  · rw [embedDataInPng_eq_ok px
      (4 * (11 + ((data.length + 12) * 8 + 2) / 3)) data (by omega)]
    rfl
  · have herr := embedDataInPng_eq_err px
      (4 * (11 + ((data.length + 12) * 8 + 2) / 3 - 1)) data (by omega)
    have hdiv : 4 * (11 + ((data.length + 12) * 8 + 2) / 3 - 1) / 4 =
        11 + ((data.length + 12) * 8 + 2) / 3 - 1 := by omega
    rw [hdiv] at herr
    exact herr

/-! ### Claim C8 — header validation on decode -/

/-- C8: with fewer than 11 pixels `extractDataFromPng` fails with the
invalid-header error; otherwise the 32 header LSBs are read successfully
and, whenever the decoded length is zero or exceeds
`floor((totalPixels - 11) * 3 / 8)`, decoding fails with the corrupt-header
error.  (`NaN` cannot arise in the `Nat` model.) -/
theorem C8_header_validation (px : Nat → Nat) (N : Nat) :
    (N < 11 → extractDataFromPng px (4 * N) = .error .invalidHeader) ∧
    (11 ≤ N → ∃ bits, extractBitsFromImage px (4 * N) 0 32 = some bits ∧
      ((bits.foldl (fun d b => d <<< 1 ||| b) 0 = 0 ∨
          (N - 11) * 3 / 8 < bits.foldl (fun d b => d <<< 1 ||| b) 0) →
        extractDataFromPng px (4 * N) = .error .corruptHeader)) := by
  constructor
  · intro hN
    apply extractDataFromPng_invalid
    unfold extractBitsFromImage
    apply extractBitsAux_none
    exact ⟨30, by omega, by omega⟩
  · intro hN
    refine ⟨_, extractBitsFromImage_some px (4 * N) 0 32 (fun i hi => by omega), ?_⟩
    intro hbad
    apply extractDataFromPng_corrupt px (4 * N) _
      (extractBitsFromImage_some px (4 * N) 0 32 (fun i hi => by omega))
    rwa [show 4 * N / 4 = N from by omega]

/-- Witness for `C8_header_validation`: a 10-pixel image yields the
invalid-header error; a 46-pixel all-zero image decodes length 0 and yields
the corrupt-header error. -/
theorem C8_header_validation_witness :
    extractDataFromPng (fun _ => 0) (4 * 10) = .error .invalidHeader ∧
    extractDataFromPng (fun _ => 0) (4 * 46) = .error .corruptHeader := by
  constructor
  · exact (C8_header_validation (fun _ => 0) 10).1 (by norm_num)
  · obtain ⟨bits, hb, himp⟩ := (C8_header_validation (fun _ => 0) 46).2 (by norm_num)
    apply himp
    left
    have hbits : bits = List.replicate 32 0 := by
      have : extractBitsFromImage (fun _ => 0) (4 * 46) 0 32 =
          some (List.replicate 32 0) := by decide
      rw [this] at hb
      exact (Option.some_inj.mp hb).symm
    rw [hbits]
    decide

/-! ### Claim C10 — frame effect of the embed -/

/-- Inversion: a successful embed implies the capacity bound and pins down
the output buffer. -/
theorem embedDataInPng_ok_inv (px : Nat → Nat) (len : Nat) (data : List Nat)
    (stego : Nat → Nat) (h : embedDataInPng px len data = .ok stego) :
    11 + ((data.length + 12) * 8 + 2) / 3 ≤ len / 4 ∧ stego = pngEmbedded px data := by
  by_cases hcap : 11 + ((data.length + 12) * 8 + 2) / 3 ≤ len / 4
  · refine ⟨hcap, ?_⟩
    rw [embedDataInPng_eq_ok px len data hcap] at h
    exact (Except.ok.inj h).symm
  · rw [embedDataInPng_eq_err px len data (by omega)] at h
    exact absurd h (fun hcon => Except.noConfusion hcon)

/-- C10: a successful `embedDataInPng` changes only (a) the alpha byte
(forced to 255) of the touched pixels — pixels `0..10` for the header and
the `ceil(frameBits/3)` pixels from pixel 11 for the frame — and (b) the
least-significant bit of the R/G/B channel bytes it writes; every other
byte, including the upper bits of each touched channel and everything past
the frame, is unchanged. -/
theorem C10_frame_effect (px : Nat → Nat) (data : List Nat) (N : Nat)
    (stego : Nat → Nat)
    (hpx : ∀ q, px q < 256)
    (hemb : embedDataInPng px (4 * N) data = .ok stego) :
    ∀ p,
      (p % 4 = 3 ∧ p / 4 < 11 + ((4 + data.length + 8) * 8 + 2) / 3 →
        stego p = 255) ∧
      (p % 4 < 3 ∧ (p / 4 < 11 ∧ p / 4 * 3 + p % 4 < 32 ∨
          11 ≤ p / 4 ∧ (p / 4 - 11) * 3 + p % 4 < (4 + data.length + 8) * 8) →
        stego p / 2 = px p / 2 ∧ stego p < 256) ∧
      (¬(p % 4 = 3 ∧ p / 4 < 11 + ((4 + data.length + 8) * 8 + 2) / 3) ∧
       ¬(p % 4 < 3 ∧ (p / 4 < 11 ∧ p / 4 * 3 + p % 4 < 32 ∨
          11 ≤ p / 4 ∧ (p / 4 - 11) * 3 + p % 4 < (4 + data.length + 8) * 8)) →
        stego p = px p) := by
  obtain ⟨hcap, rfl⟩ := embedDataInPng_ok_inv px (4 * N) data stego hemb
  have h12 : 4 + data.length + 8 = data.length + 12 := by omega
  rw [h12]
  intro p
  refine ⟨?_, ?_, ?_⟩
  · rintro ⟨hmod, hpix⟩
    have hp : p = p / 4 * 4 + 3 := by omega
    rw [hp]
    exact pngEmbedded_alpha px data (p / 4) hpix
  · rintro ⟨hmod, hcase⟩
    rcases hcase with ⟨hpix, hidx⟩ | ⟨hpix, hidx⟩
    · -- header channel write
      have hp : p = bitPos 0 (p / 4 * 3 + p % 4) := by
        simp only [bitPos]
        omega
      rw [hp, pngEmbedded_header_lsb px data _ hidx]
      exact ⟨lsbWrite_div_two _ _ (hpx _) (headerBits_getD_le _ _ hidx),
        lsbWrite_lt _ _ (hpx _) (headerBits_getD_le _ _ hidx)⟩
    · -- frame channel write
      have hp : p = bitPos 44 ((p / 4 - 11) * 3 + p % 4) := by
        simp only [bitPos]
        omega
      have hle : ((p / 4 - 11) * 3 + p % 4) <
          (bytesBits (PNG_BOD_MARKER ++ data ++ PNG_EOD_MARKER)).length := by
        rw [bytesBits_length, fullPayload_length]
        exact hidx
      rw [hp, pngEmbedded_payload_lsb px data _ hidx]
      exact ⟨lsbWrite_div_two _ _ (hpx _) (bytesBits_getD_le _ _ hle),
        lsbWrite_lt _ _ (hpx _) (bytesBits_getD_le _ _ hle)⟩
  · rintro ⟨hna, hnl⟩
    push_neg at hna hnl
    apply pngEmbedded_untouched px data p
    · exact hna
    · intro hmod hpix
      exact (hnl hmod).1 hpix
    · intro hmod hpix
      exact (hnl hmod).2 hpix

/-- Witness for `C10_frame_effect`: payload `[7]` in a 46-pixel cover of
constant bytes 37: pixel 0's alpha byte becomes 255, pixel 0's R channel
keeps its upper bits (`37 / 2 = 18`), and the byte just past the frame's
final pixel is untouched. -/
theorem C10_frame_effect_witness :
    pngEmbedded (fun _ => 37) [7] 3 = 255 ∧
    (pngEmbedded (fun _ => 37) [7] 0 / 2 = 37 / 2 ∧ pngEmbedded (fun _ => 37) [7] 0 < 256) ∧
    pngEmbedded (fun _ => 37) [7] 184 = 37 := by
  have h := C10_frame_effect (fun _ => 37) [7] 46 (pngEmbedded (fun _ => 37) [7])
    (fun _ => (by decide : (37 : Nat) < 256))
    (embedDataInPng_eq_ok (fun _ => 37) (4 * 46) [7] (by decide))
  exact ⟨(h 3).1 (by decide), (h 0).2.1 (by decide), (h 184).2.2 (by decide)⟩

/-! ### Claim C2 — dual-format decode fallback -/

theorem BOD_length : PNG_BOD_MARKER.length = 4 := rfl

theorem EOD_length : PNG_EOD_MARKER.length = 8 := rfl

theorem pngTryNew_eq_some (px : Nat → Nat) (len L : Nat) (newBits : List Nat)
    (hread : extractBitsFromImage px len 11 ((4 + L + 8) * 8) = some newBits)
    (hbod : (bitsToBytes newBits).take 4 = PNG_BOD_MARKER)
    (heod : ((bitsToBytes newBits).drop (4 + L)).take 8 = PNG_EOD_MARKER) :
    pngTryNew px len L = some (((bitsToBytes newBits).drop 4).take L) := by
  unfold pngTryNew
  simp only [BOD_length, EOD_length]
  rw [hread]
  simp only []
  rw [if_pos ⟨hbod, heod⟩]

theorem pngTryNew_eq_none (px : Nat → Nat) (len L : Nat)
    (h : extractBitsFromImage px len 11 ((4 + L + 8) * 8) = none ∨
      ∃ newBits, extractBitsFromImage px len 11 ((4 + L + 8) * 8) = some newBits ∧
        ¬((bitsToBytes newBits).take 4 = PNG_BOD_MARKER ∧
          ((bitsToBytes newBits).drop (4 + L)).take 8 = PNG_EOD_MARKER)) :
    pngTryNew px len L = none := by
  unfold pngTryNew
  simp only [BOD_length, EOD_length]
  rcases h with h | ⟨newBits, hread, hfail⟩
  · rw [h]
  · rw [hread]
    simp only []
    rw [if_neg hfail]

theorem pngTryOld_eq_some (px : Nat → Nat) (len L : Nat) (oldBits : List Nat)
    (hread : extractBitsFromImage px len 11 ((L + 8) * 8) = some oldBits)
    (heod : ((bitsToBytes oldBits).drop L).take 8 = PNG_EOD_MARKER) :
    pngTryOld px len L = some ((bitsToBytes oldBits).take L) := by
  unfold pngTryOld
  simp only [EOD_length]
  rw [hread]
  simp only []
  rw [if_pos heod]

theorem pngTryOld_eq_none (px : Nat → Nat) (len L : Nat)
    (h : extractBitsFromImage px len 11 ((L + 8) * 8) = none ∨
      ∃ oldBits, extractBitsFromImage px len 11 ((L + 8) * 8) = some oldBits ∧
        ((bitsToBytes oldBits).drop L).take 8 ≠ PNG_EOD_MARKER) :
    pngTryOld px len L = none := by
  unfold pngTryOld
  simp only [EOD_length]
  rcases h with h | ⟨oldBits, hread, hfail⟩
  · rw [h]
  · rw [hread]
    simp only []
    rw [if_neg hfail]

/-- C2: after a valid length header (`L ≠ 0`, `L ≤ maxStorableBytes`) is
read, the decoder (1) reads `(4 + L + 8) * 8` bits starting at pixel 11
and, if the first 4 bytes are the BOD marker and the 8 bytes after the
payload are the EOD marker, returns the middle `L` bytes; (2) otherwise it
reads `(L + 8) * 8` bits and, if the trailing 8 bytes are the EOD marker,
returns the leading `L` bytes; (3) if neither variant matches it fails with
the marker-not-found error. -/
theorem C2_dual_format (px : Nat → Nat) (N L : Nat) (bits : List Nat)
    (hhead : extractBitsFromImage px (4 * N) 0 32 = some bits)
    (hfold : bits.foldl (fun d b => d <<< 1 ||| b) 0 = L)
    (hL0 : L ≠ 0)
    (hLmax : L ≤ (N - 11) * 3 / 8) :
    (∀ newBits, extractBitsFromImage px (4 * N) 11 ((4 + L + 8) * 8) = some newBits →
      (bitsToBytes newBits).take 4 = PNG_BOD_MARKER →
      ((bitsToBytes newBits).drop (4 + L)).take 8 = PNG_EOD_MARKER →
      extractDataFromPng px (4 * N) = .ok (((bitsToBytes newBits).drop 4).take L)) ∧
    ((extractBitsFromImage px (4 * N) 11 ((4 + L + 8) * 8) = none ∨
      ∃ newBits, extractBitsFromImage px (4 * N) 11 ((4 + L + 8) * 8) = some newBits ∧
        ¬((bitsToBytes newBits).take 4 = PNG_BOD_MARKER ∧
          ((bitsToBytes newBits).drop (4 + L)).take 8 = PNG_EOD_MARKER)) →
      (∀ oldBits, extractBitsFromImage px (4 * N) 11 ((L + 8) * 8) = some oldBits →
        ((bitsToBytes oldBits).drop L).take 8 = PNG_EOD_MARKER →
        extractDataFromPng px (4 * N) = .ok ((bitsToBytes oldBits).take L)) ∧
      ((extractBitsFromImage px (4 * N) 11 ((L + 8) * 8) = none ∨
        ∃ oldBits, extractBitsFromImage px (4 * N) 11 ((L + 8) * 8) = some oldBits ∧
          ((bitsToBytes oldBits).drop L).take 8 ≠ PNG_EOD_MARKER) →
        extractDataFromPng px (4 * N) = .error .markerNotFound)) := by
  have hgood : ¬(bits.foldl (fun d b => d <<< 1 ||| b) 0 = 0 ∨
      (4 * N / 4 - 11) * 3 / 8 < bits.foldl (fun d b => d <<< 1 ||| b) 0) := by
    rw [hfold]
    push_neg
    refine ⟨hL0, ?_⟩
    rw [show 4 * N / 4 = N from by omega]
    exact hLmax
  constructor
  · intro newBits hread hbod heod
    apply extractDataFromPng_newFormat px (4 * N) bits _ hhead hgood
    rw [hfold]
    exact pngTryNew_eq_some px (4 * N) L newBits hread hbod heod
  · intro hnewFail
    have hnew : pngTryNew px (4 * N) (bits.foldl (fun d b => d <<< 1 ||| b) 0) = none := by
      rw [hfold]
      exact pngTryNew_eq_none px (4 * N) L hnewFail
    constructor
    · intro oldBits hread heod
      apply extractDataFromPng_oldFormat px (4 * N) bits _ hhead hgood hnew
      rw [hfold]
      exact pngTryOld_eq_some px (4 * N) L oldBits hread heod
    · intro holdFail
      apply extractDataFromPng_notFound px (4 * N) bits hhead hgood hnew
      rw [hfold]
      exact pngTryOld_eq_none px (4 * N) L holdFail

set_option maxRecDepth 1000000 in
/-- Witness for `C2_dual_format`: the embedded image of payload `[7]` in a
46-pixel cover decodes through the new-format branch. -/
theorem C2_dual_format_witness :
    extractDataFromPng (pngEmbedded (fun _ => 0) [7]) (4 * 46) =
      .ok (((bitsToBytes (bytesBits (PNG_BOD_MARKER ++ [7] ++ PNG_EOD_MARKER))).drop 4).take 1) := by
  have h := C2_dual_format (pngEmbedded (fun _ => 0) [7]) 46 1 (headerBits 1)
    (by decide) (by decide) (by decide) (by decide)
  exact h.1 (bytesBits (PNG_BOD_MARKER ++ [7] ++ PNG_EOD_MARKER))
    (by decide) (by decide) (by decide)

/-! ### Claims C3 and C7 — generic-file appending format -/

theorem GENERIC_length : GENERIC_EOD_MARKER.length = 9 := rfl

theorem natToBE8_length (n : Nat) : (natToBE8 n).length = 8 := by
  simp [natToBE8]

/-- Decoding the 8 big-endian bytes recovers the encoded length (mod 2^64). -/
theorem beBytesToNat_natToBE8 (n : Nat) :
    beBytesToNat (natToBE8 n) = n % 18446744073709551616 := by
  unfold natToBE8 beBytesToNat
  simp [List.range_succ]
  omega

theorem embedDataInGenericFile_length (cover data : List Nat) :
    (embedDataInGenericFile cover data).length = cover.length + data.length + 9 + 8 := by
  unfold embedDataInGenericFile
  simp [GENERIC_length, natToBE8_length, GENERIC_EOD_MARKER]
  omega

/-- C3: generic-file round-trip with exact size: extraction inverts
embedding, the stego file is `len(C) + len(P) + 9 + 8` bytes long, and in
particular the 6-byte payload "secret" in a 40-byte cover gives a 63-byte
file from which the 6 bytes are recovered.  (`len(P) < 2^64` reflects the
64-bit length field; every JavaScript byte array is far smaller.) -/
theorem C3_generic_roundtrip (cover data : List Nat)
    (h64 : data.length < 18446744073709551616) :
    extractDataFromGenericFile (embedDataInGenericFile cover data) = .ok data ∧
    (embedDataInGenericFile cover data).length = cover.length + data.length + 9 + 8 ∧
    (embedDataInGenericFile (List.replicate 40 0) [115, 101, 99, 114, 101, 116]).length = 63 ∧
    extractDataFromGenericFile (embedDataInGenericFile (List.replicate 40 0)
      [115, 101, 99, 114, 101, 116]) = .ok [115, 101, 99, 114, 101, 116] := by
  refine ⟨?_, embedDataInGenericFile_length cover data, by decide, rfl⟩
  unfold extractDataFromGenericFile
  simp only [GENERIC_length]
  have hflen := embedDataInGenericFile_length cover data
  rw [hflen]
  rw [if_neg (by omega)]
  have hsplit : embedDataInGenericFile cover data =
      (cover ++ data) ++ (GENERIC_EOD_MARKER ++ natToBE8 data.length) := by
    unfold embedDataInGenericFile
    simp [List.append_assoc]
  have hdropMarker : (embedDataInGenericFile cover data).drop
      (cover.length + data.length + 9 + 8 - 8 - 9) =
      GENERIC_EOD_MARKER ++ natToBE8 data.length := by
    rw [hsplit]
    exact List.drop_left' (by simp only [List.length_append]; omega)
  have hmarker : ((embedDataInGenericFile cover data).drop
      (cover.length + data.length + 9 + 8 - 8 - 9)).take 9 = GENERIC_EOD_MARKER := by
    rw [hdropMarker]
    exact List.take_left' GENERIC_length
  rw [hmarker]
  rw [if_neg (by intro hcon; exact hcon rfl)]
  have hdropLen : (embedDataInGenericFile cover data).drop
      (cover.length + data.length + 9 + 8 - 8) = natToBE8 data.length := by
    have hsplit2 : embedDataInGenericFile cover data =
        ((cover ++ data) ++ GENERIC_EOD_MARKER) ++ natToBE8 data.length := by
      unfold embedDataInGenericFile
      simp [List.append_assoc]
    rw [hsplit2]
    exact List.drop_left' (by simp only [List.length_append, GENERIC_length]; omega)
  rw [hdropLen, beBytesToNat_natToBE8, Nat.mod_eq_of_lt h64]
  rw [if_neg (by omega)]
  congr 1
  have hdropData : (embedDataInGenericFile cover data).drop
      (cover.length + data.length + 9 + 8 - 8 - 9 - data.length) =
      data ++ (GENERIC_EOD_MARKER ++ natToBE8 data.length) := by
    have hsplit3 : embedDataInGenericFile cover data =
        cover ++ (data ++ (GENERIC_EOD_MARKER ++ natToBE8 data.length)) := by
      unfold embedDataInGenericFile
      simp [List.append_assoc]
    rw [hsplit3]
    exact List.drop_left' (by omega)
  rw [hdropData]
  exact List.take_left' rfl

/-- Witness for `C3_generic_roundtrip` at a 3-byte payload in a 2-byte cover. -/
theorem C3_generic_roundtrip_witness :
    extractDataFromGenericFile (embedDataInGenericFile [9, 9] [1, 2, 3]) = .ok [1, 2, 3] ∧
    (embedDataInGenericFile [9, 9] [1, 2, 3]).length = 2 + 3 + 9 + 8 :=
  ⟨(C3_generic_roundtrip [9, 9] [1, 2, 3] (by decide)).1,
   (C3_generic_roundtrip [9, 9] [1, 2, 3] (by decide)).2.1⟩

/-- C7: the generic-file decode error taxonomy: `tooSmall` under 17 bytes;
`markerNotFound` when the 9 bytes before the final 8 are not "STEGGUARD";
`corruptLength` when `fileLength - 17` is less than the decoded big-endian
length; otherwise the bytes of `[fileLength - 17 - length, fileLength - 17)`
are returned. -/
theorem C7_generic_error_taxonomy (file : List Nat) :
    (file.length < 17 → extractDataFromGenericFile file = .error .tooSmall) ∧
    (17 ≤ file.length →
      (file.drop (file.length - 17)).take 9 ≠ GENERIC_EOD_MARKER →
      extractDataFromGenericFile file = .error .markerNotFound) ∧
    (17 ≤ file.length →
      (file.drop (file.length - 17)).take 9 = GENERIC_EOD_MARKER →
      (file.length - 17 < beBytesToNat (file.drop (file.length - 8)) →
        extractDataFromGenericFile file = .error .corruptLength) ∧
      (beBytesToNat (file.drop (file.length - 8)) ≤ file.length - 17 →
        extractDataFromGenericFile file =
          .ok ((file.drop (file.length - 17 - beBytesToNat (file.drop (file.length - 8)))).take
            (beBytesToNat (file.drop (file.length - 8)))))) := by
  refine ⟨?_, ?_, ?_⟩
  · intro hsmall
    unfold extractDataFromGenericFile
    simp only [GENERIC_length]
    rw [if_pos (by omega)]
  · intro hbig hne
    unfold extractDataFromGenericFile
    simp only [GENERIC_length]
    rw [if_neg (by omega)]
    rw [show file.length - 8 - 9 = file.length - 17 from by omega]
    rw [if_pos hne]
  · intro hbig heq
    constructor
    · intro hcorrupt
      unfold extractDataFromGenericFile
      simp only [GENERIC_length]
      rw [if_neg (by omega)]
      rw [show file.length - 8 - 9 = file.length - 17 from by omega]
      rw [if_neg (by intro hcon; exact hcon heq)]
      rw [if_pos (by omega)]
    · intro hok
      unfold extractDataFromGenericFile
      simp only [GENERIC_length]
      rw [if_neg (by omega)]
      rw [show file.length - 8 - 9 = file.length - 17 from by omega]
      rw [if_neg (by intro hcon; exact hcon heq)]
      rw [if_neg (by omega)]

/-- Witness for `C7_generic_error_taxonomy`: a 1-byte file is too small; 17
zero bytes have no marker; "STEGGUARD" followed by length 256 is corrupt;
a well-formed 20-byte file extracts its 3 data bytes. -/
theorem C7_generic_error_taxonomy_witness :
    extractDataFromGenericFile [0] = .error .tooSmall ∧
    extractDataFromGenericFile (List.replicate 17 0) = .error .markerNotFound ∧
    extractDataFromGenericFile
      (GENERIC_EOD_MARKER ++ [0, 0, 0, 0, 0, 0, 1, 0]) = .error .corruptLength ∧
    extractDataFromGenericFile
      ([1, 2, 3] ++ GENERIC_EOD_MARKER ++ [0, 0, 0, 0, 0, 0, 0, 3]) = .ok [1, 2, 3] := by
  refine ⟨(C7_generic_error_taxonomy [0]).1 (by decide),
    (C7_generic_error_taxonomy (List.replicate 17 0)).2.1 (by decide) (by decide), ?_, ?_⟩
  · exact ((C7_generic_error_taxonomy
      (GENERIC_EOD_MARKER ++ [0, 0, 0, 0, 0, 0, 1, 0])).2.2 (by decide) (by decide)).1
        (by decide)
  · have h := ((C7_generic_error_taxonomy
      ([1, 2, 3] ++ GENERIC_EOD_MARKER ++ [0, 0, 0, 0, 0, 0, 0, 3])).2.2
        (by decide) (by decide)).2 (by decide)
    rw [h]
    rfl

/-! ### decode-tab.tsx — classification of extracted payloads (C4, C5)

`JSON.parse` and Ed25519 verification are platform primitives; they enter
the model as oracles: `parse` maps a byte buffer to `none` (the parse threw)
or to the shape-relevant content of the parsed object, and `verify` is the
boolean signature check. -/

/-- What `processFile` observes of a parsed JSON document: JS truthiness of
the `decoy` and `messages` fields and the optional `senderPublicKey`. -/
structure ParsedDoc (Key : Type) where
  hasDecoy : Bool
  hasMessages : Bool
  senderPublicKey : Option Key
  deriving DecidableEq, Repr

/-- Outcome of the `processFile` classification (decode-tab.tsx lines
59–117); the last three constructors are thrown errors that land in the
surrounding `catch`. -/
inductive ProcessResult (Key : Type) where
  | unsigned (doc : ParsedDoc Key)
  | validSigned (doc : ParsedDoc Key)
  | invalidSignature
  | tooSmallForSignature
  | missingSenderKey
  | payloadParseError
  deriving DecidableEq, Repr

def SIGNATURE_LENGTH_BYTES : Nat := 64

/-- The signed-payload path of `processFile` (decode-tab.tsx lines 82–109):
split off the trailing 64 bytes, parse the candidate envelope, require
`senderPublicKey`, verify the signature. -/
def processSigned {Key : Type} (parse : List Nat → Option (ParsedDoc Key))
    (verify : Key → List Nat → List Nat → Bool) (buf : List Nat) : ProcessResult Key :=
  if buf.length ≤ SIGNATURE_LENGTH_BYTES then .tooSmallForSignature
  else
    let payloadLength := buf.length - SIGNATURE_LENGTH_BYTES
    let payloadBuffer := buf.take payloadLength
    let signatureBuffer := buf.drop payloadLength
    match parse payloadBuffer with
    | none => .payloadParseError
    | some doc =>
      match doc.senderPublicKey with
      | none => .missingSenderKey
      | some key =>
        if verify key signatureBuffer payloadBuffer then .validSigned doc
        else .invalidSignature

/-- `processFile`'s classification of an extracted buffer (decode-tab.tsx
lines 67–109): first try to parse the WHOLE buffer; a parse that yields
`decoy` and `messages` but no `senderPublicKey` is an unsigned message and
returns early; anything else falls through to the signed path. -/
def processExtracted {Key : Type} (parse : List Nat → Option (ParsedDoc Key))
    (verify : Key → List Nat → List Nat → Bool) (buf : List Nat) : ProcessResult Key :=
  match parse buf with
  | some doc =>
    if doc.hasDecoy && doc.hasMessages && doc.senderPublicKey.isNone then
      .unsigned doc
    else processSigned parse verify buf
  | none => processSigned parse verify buf

inductive SignatureState where
  | valid
  | invalid
  | unsigned
  deriving DecidableEq, Repr

/-- The component state `processFile` leaves behind: `decodedData`,
`signatureState`, and whether the catch-all error message was set.  All
three are reset (`null`/`''`) when processing starts (decode-tab.tsx lines
50–57). -/
structure DecodeState (Key : Type) where
  decodedData : Option (ParsedDoc Key)
  signatureState : Option SignatureState
  errorSet : Bool
  deriving DecidableEq, Repr

/-- The `setDecodedData` / `setSignatureState` / `setError` effects of each
outcome (decode-tab.tsx lines 72–117): note `invalidSignature` stores
`setDecodedData(null)` — the envelope is discarded — while the thrown
errors land in the `catch` which sets the error text and a `null`
signature state. -/
def stateAfterProcess {Key : Type} : ProcessResult Key → DecodeState Key
  | .unsigned doc => ⟨some doc, some .unsigned, false⟩
  | .validSigned doc => ⟨some doc, some .valid, false⟩
  | .invalidSignature => ⟨none, some .invalid, false⟩
  | .tooSmallForSignature => ⟨none, none, true⟩
  | .missingSenderKey => ⟨none, none, true⟩
  | .payloadParseError => ⟨none, none, true⟩

/-- The guards of `handleMessageDecrypt` (decode-tab.tsx lines 144–156): the
identity loop (and with it any decryption attempt) is reached only when
data was decoded, the signature state is not `invalid`, and at least one
identity exists. -/
def decryptionPathEntered {Key : Type} (st : DecodeState Key) (identityCount : Nat) : Bool :=
  st.decodedData.isSome && !(decide (st.signatureState = some .invalid)) &&
    !(decide (identityCount = 0))

/-- When the whole-buffer parse does not produce an unsigned envelope, the
classification falls through to the signed path. -/
theorem processExtracted_fallthrough {Key : Type}
    (parse : List Nat → Option (ParsedDoc Key))
    (verify : Key → List Nat → List Nat → Bool) (buf : List Nat)
    (hnotUnsigned : ∀ d, parse buf = some d →
      ¬(d.hasDecoy = true ∧ d.hasMessages = true ∧ d.senderPublicKey = none)) :
    processExtracted parse verify buf = processSigned parse verify buf := by
  unfold processExtracted
  cases hwhole : parse buf with
  | none => rfl
  | some d =>
    have hd := hnotUnsigned d hwhole
    have hfalse : (d.hasDecoy && d.hasMessages && d.senderPublicKey.isNone) = false := by
      rcases Bool.eq_false_or_eq_true (d.hasDecoy && d.hasMessages && d.senderPublicKey.isNone)
        with ht | hf
      · simp only [Bool.and_eq_true, Option.isNone_iff_eq_none] at ht
        exact absurd ⟨ht.1.1, ht.1.2, ht.2⟩ hd
      · exact hf
    simp [hfalse]

/-- The signed path when the candidate envelope parses and carries a sender
key: the outcome is decided by the verification result. -/
theorem processSigned_verify {Key : Type}
    (parse : List Nat → Option (ParsedDoc Key))
    (verify : Key → List Nat → List Nat → Bool) (buf : List Nat)
    (doc : ParsedDoc Key) (key : Key)
    (hbig : SIGNATURE_LENGTH_BYTES < buf.length)
    (hparse : parse (buf.take (buf.length - SIGNATURE_LENGTH_BYTES)) = some doc)
    (hkey : doc.senderPublicKey = some key) :
    processSigned parse verify buf =
      if verify key (buf.drop (buf.length - SIGNATURE_LENGTH_BYTES))
          (buf.take (buf.length - SIGNATURE_LENGTH_BYTES)) then
        .validSigned doc
      else .invalidSignature := by
  unfold processSigned
  rw [if_neg (by omega)]
  simp only []
  rw [hparse]
  simp [hkey]

/-- C4: the decoder first parses the whole buffer as envelope JSON and, when
the parse yields an envelope without `senderPublicKey`, classifies it as
unsigned (no signature check); otherwise it splits off the last 64 bytes,
fails with the missing-sender-key error when the parsed candidate envelope
has no `senderPublicKey`, and otherwise verifies the signature against the
embedded sender key. -/
theorem C4_signed_unsigned_classification {Key : Type}
    (parse : List Nat → Option (ParsedDoc Key))
    (verify : Key → List Nat → List Nat → Bool) (buf : List Nat) :
    (∀ doc, parse buf = some doc → doc.hasDecoy = true → doc.hasMessages = true →
      doc.senderPublicKey = none →
      processExtracted parse verify buf = .unsigned doc) ∧
    ((∀ doc, parse buf = some doc →
        ¬(doc.hasDecoy = true ∧ doc.hasMessages = true ∧ doc.senderPublicKey = none)) →
      SIGNATURE_LENGTH_BYTES < buf.length →
      ∀ doc, parse (buf.take (buf.length - SIGNATURE_LENGTH_BYTES)) = some doc →
        (doc.senderPublicKey = none →
          processExtracted parse verify buf = .missingSenderKey) ∧
        (∀ key, doc.senderPublicKey = some key →
          processExtracted parse verify buf =
            if verify key (buf.drop (buf.length - SIGNATURE_LENGTH_BYTES))
                (buf.take (buf.length - SIGNATURE_LENGTH_BYTES)) then
              .validSigned doc
            else .invalidSignature)) := by
  constructor
  · intro doc hparse hdecoy hmsgs hkey
    unfold processExtracted
    rw [hparse]
    simp [hdecoy, hmsgs, hkey]
  · intro hnotUnsigned hbig doc hparse
    rw [processExtracted_fallthrough parse verify buf hnotUnsigned]
    constructor
    · intro hkey
      unfold processSigned
      rw [if_neg (by omega)]
      simp only []
      rw [hparse]
      simp [hkey]
    · intro key hkey
      exact processSigned_verify parse verify buf doc key hbig hparse hkey

/-- Witness for `C4_signed_unsigned_classification`: a one-byte buffer whose
parse yields an envelope without sender key is classified unsigned. -/
theorem C4_signed_unsigned_classification_witness :
    processExtracted (fun _ : List Nat => some (⟨true, true, none⟩ : ParsedDoc Nat))
      (fun _ _ _ => true) [9] = .unsigned ⟨true, true, none⟩ :=
  (C4_signed_unsigned_classification (fun _ => some ⟨true, true, none⟩)
    (fun _ _ _ => true) [9]).1 ⟨true, true, none⟩ rfl rfl rfl rfl

/-- C5: whenever the signature check returns `false`, the classification is
`invalidSignature`, the decoded envelope is discarded (`decodedData` stays
`null`), the state is the distinguished `invalid` signature state (not the
parse/format error state), and the message-decryption path is never entered
for that payload. -/
theorem C5_invalid_signature_blocks_decryption {Key : Type}
    (parse : List Nat → Option (ParsedDoc Key))
    (verify : Key → List Nat → List Nat → Bool) (buf : List Nat)
    (doc : ParsedDoc Key) (key : Key)
    (hnotUnsigned : ∀ d, parse buf = some d →
      ¬(d.hasDecoy = true ∧ d.hasMessages = true ∧ d.senderPublicKey = none))
    (hbig : SIGNATURE_LENGTH_BYTES < buf.length)
    (hparse : parse (buf.take (buf.length - SIGNATURE_LENGTH_BYTES)) = some doc)
    (hkey : doc.senderPublicKey = some key)
    (hverify : verify key (buf.drop (buf.length - SIGNATURE_LENGTH_BYTES))
      (buf.take (buf.length - SIGNATURE_LENGTH_BYTES)) = false) :
    processExtracted parse verify buf = .invalidSignature ∧
    (stateAfterProcess (processExtracted parse verify buf)).decodedData = none ∧
    (stateAfterProcess (processExtracted parse verify buf)).signatureState = some .invalid ∧
    (stateAfterProcess (processExtracted parse verify buf)).errorSet = false ∧
    (∀ identityCount,
      decryptionPathEntered (stateAfterProcess (processExtracted parse verify buf))
        identityCount = false) ∧
    (∀ r : ProcessResult Key, (stateAfterProcess r).errorSet = true →
      (stateAfterProcess r).signatureState ≠ some .invalid) := by
  have hres : processExtracted parse verify buf = .invalidSignature := by
    rw [processExtracted_fallthrough parse verify buf hnotUnsigned,
      processSigned_verify parse verify buf doc key hbig hparse hkey,
      if_neg (by rw [hverify]; exact Bool.false_ne_true)]
  refine ⟨hres, ?_, ?_, ?_, ?_, ?_⟩
  · rw [hres]; rfl
  · rw [hres]; rfl
  · rw [hres]; rfl
  · intro identityCount
    rw [hres]
    rfl
  · intro r herr
    cases r <;> simp [stateAfterProcess] at herr ⊢

/-- Witness for `C5_invalid_signature_blocks_decryption`: a 65-byte buffer
whose 1-byte candidate envelope parses with a sender key but fails
verification is classified invalid, and the decryption path stays closed
even with identities present. -/
theorem C5_invalid_signature_blocks_decryption_witness :
    processExtracted
      (fun b : List Nat => if b.length = 1 then some (⟨true, true, some 5⟩ : ParsedDoc Nat) else none)
      (fun _ _ _ => false) (List.replicate 65 0) = .invalidSignature ∧
    decryptionPathEntered
      (stateAfterProcess (processExtracted
        (fun b : List Nat => if b.length = 1 then some (⟨true, true, some 5⟩ : ParsedDoc Nat) else none)
        (fun _ _ _ => false) (List.replicate 65 0))) 3 = false := by
  have h := C5_invalid_signature_blocks_decryption
    (fun b => if b.length = 1 then some ⟨true, true, some 5⟩ else none)
    (fun _ _ _ => false) (List.replicate 65 0) ⟨true, true, some 5⟩ 5
    (by
      intro d hcon
      simp [List.length_replicate] at hcon)
    (by decide) rfl rfl rfl
  exact ⟨h.1, h.2.2.2.2.1 3⟩

/-! ### crypto.ts — `getPublicKeyHash` (C9)

`crypto.subtle.digest('SHA-256', ...)` is a platform primitive; it enters
the model as an oracle `digest` from the canonical key string (the function
UTF-8-encodes it before digesting; the encoding is injective, so the model
keys the oracle on the string itself) to the 32 digest bytes. -/

/-- A JWK as seen by `getPublicKeyHash`: the four properties the function
reads, each `none` when absent, plus all remaining properties, which the
function ignores.  A JS object has no reliable property order, so none is
represented. -/
structure Jwk where
  kty : Option String
  crv : Option String
  x : Option String
  y : Option String
  rest : List (String × String)
  deriving DecidableEq, Repr

inductive CryptoError where
  | malformedKey
  deriving DecidableEq, Repr

/-- JS truthiness of an optional string property (absent and `""` are
falsy). -/
def jsTruthy : Option String → Bool
  | none => false
  | some s => s != ""

/-- `bufferToHex` (crypto.ts lines 297–299) on byte values:
`b.toString(16).padStart(2, '0')` for each byte, concatenated
(`Nat.digitChar` maps 0–15 to the lowercase hex digits, as JS does). -/
def bufferToHex (bytes : List Nat) : String :=
  String.mk (bytes.flatMap (fun b =>
    [Nat.digitChar (b / 16 % 16), Nat.digitChar (b % 16)]))

/-- `getPublicKeyHash` (crypto.ts lines 90–106): EC keys hash
`kty|crv|x|y`, OKP keys hash `kty|crv|x`, anything else throws. -/
def getPublicKeyHash (digest : String → List Nat) (k : Jwk) :
    Except CryptoError String :=
  if k.kty == some "EC" && jsTruthy k.crv && jsTruthy k.x && jsTruthy k.y then
    .ok (bufferToHex (digest
      (k.kty.getD "" ++ "|" ++ k.crv.getD "" ++ "|" ++ k.x.getD "" ++ "|" ++ k.y.getD "")))
  else if k.kty == some "OKP" && jsTruthy k.crv && jsTruthy k.x then
    .ok (bufferToHex (digest (k.kty.getD "" ++ "|" ++ k.crv.getD "" ++ "|" ++ k.x.getD "")))
  else
    .error .malformedKey

/-- C9: `getPublicKeyHash` hex-encodes the digest of `kty|crv|x|y` for EC
keys and of `kty|crv|x` for OKP keys; the result depends only on those
fields (so the same key always hashes the same, independent of the other
properties or any message content); a key missing a required field is a
malformed-key error. -/
theorem C9_public_key_hash (digest : String → List Nat) (k : Jwk) :
    (∀ crv x y, k.kty = some "EC" → k.crv = some crv → crv ≠ "" →
      k.x = some x → x ≠ "" → k.y = some y → y ≠ "" →
      getPublicKeyHash digest k =
        .ok (bufferToHex (digest ("EC" ++ "|" ++ crv ++ "|" ++ x ++ "|" ++ y)))) ∧
    (∀ crv x, k.kty = some "OKP" → k.crv = some crv → crv ≠ "" →
      k.x = some x → x ≠ "" →
      getPublicKeyHash digest k =
        .ok (bufferToHex (digest ("OKP" ++ "|" ++ crv ++ "|" ++ x)))) ∧
    (∀ rest2, getPublicKeyHash digest { k with rest := rest2 } =
      getPublicKeyHash digest k) ∧
    (¬(k.kty = some "EC" ∧ jsTruthy k.crv = true ∧ jsTruthy k.x = true ∧
        jsTruthy k.y = true) →
      ¬(k.kty = some "OKP" ∧ jsTruthy k.crv = true ∧ jsTruthy k.x = true) →
      getPublicKeyHash digest k = .error .malformedKey) := by
  refine ⟨?_, ?_, ?_, ?_⟩
  · intro crv x y hkty hcrv hcrvne hx hxne hy hyne
    unfold getPublicKeyHash
    rw [if_pos]
    · rw [hkty, hcrv, hx, hy]
      rfl
    · rw [hkty, hcrv, hx, hy]
      simp [jsTruthy, hcrvne, hxne, hyne]
  · intro crv x hkty hcrv hcrvne hx hxne
    unfold getPublicKeyHash
    rw [if_neg, if_pos]
    · rw [hkty, hcrv, hx]
      rfl
    · rw [hkty, hcrv, hx]
      simp [jsTruthy, hcrvne, hxne]
    · rw [hkty]
      simp
  · intro rest2
    unfold getPublicKeyHash
    rfl
  · intro hec hokp
    unfold getPublicKeyHash
    rw [if_neg, if_neg]
    · intro hcon
      simp only [Bool.and_eq_true, beq_iff_eq] at hcon
      exact hokp ⟨hcon.1.1, hcon.1.2, hcon.2⟩
    · intro hcon
      simp only [Bool.and_eq_true, beq_iff_eq] at hcon
      exact hec ⟨hcon.1.1.1, hcon.1.1.2, hcon.1.2, hcon.2⟩

/-- Witness for `C9_public_key_hash`: a well-formed EC key hashes its
canonical string; a key with no fields is malformed. -/
theorem C9_public_key_hash_witness :
    getPublicKeyHash (fun _ => [171, 205]) ⟨some "EC", some "P-256", some "xx", some "yy", []⟩ =
      .ok "abcd" ∧
    getPublicKeyHash (fun _ => [171, 205]) ⟨none, none, none, none, []⟩ =
      .error .malformedKey := by
  constructor
  · have h := (C9_public_key_hash (fun _ => [171, 205])
      ⟨some "EC", some "P-256", some "xx", some "yy", []⟩).1 "P-256" "xx" "yy"
      rfl rfl (by decide) rfl (by decide) rfl (by decide)
    rw [h]
    rfl
  · exact (C9_public_key_hash (fun _ => [171, 205]) ⟨none, none, none, none, []⟩).2.2.2
      (by intro hcon; exact Option.noConfusion hcon.1)
      (by intro hcon; exact Option.noConfusion hcon.1)

end SteganoGuard
